import Mathlib

/-!
Verification development for `fetch_python.py` (Astriora/cpython-standalone-builds).

The script downloads the latest python-build-standalone release artifacts.
We give a shallow embedding of its pure logic and of its effectful parts with
explicit state passing:

* the filesystem is a list of file paths present on disk (`FS`);
* the network is an oracle `String → Transfer` saying, for each URL, whether
  the transfer succeeds, fails leaving a partially written file, or fails
  leaving nothing at the destination;
* `os.remove` during best-effort cleanup is an oracle `String → Bool`
  (the code wraps it in `try ... except: pass`, so it may fail);
* the JSON release payload is a `Release` value; a network / parse failure
  while fetching it is modelled as the payload being `none` (the Python
  `except Exception` branch returning `None`).

Concurrency is flattened: tasks run in submission order.  The per-task state
transformers and outcomes depend only on the task itself and on paths the
task owns, so counts and per-task outcomes are order independent; the real
thread-pool bound is outside this embedding.
-/

namespace FetchPython

/-- Substring test on character lists: does `pat` occur as a prefix of `s`? -/
def prefixBool : List Char → List Char → Bool
  | [], _ => true
  | _ :: _, [] => false
  | p :: ps, c :: cs => p == c && prefixBool ps cs

/-- Substring test on character lists: does `pat` occur anywhere inside `s`? -/
def containsSubL (pat : List Char) : List Char → Bool
  | [] => prefixBool pat []
  | c :: cs => prefixBool pat (c :: cs) || containsSubL pat cs

/-- Python's `pat in s` substring containment on strings. -/
def containsSub (s pat : String) : Bool :=
  containsSubL pat.data s.data

/-- One element of the `assets` array of the GitHub release payload
(the two fields the script reads). -/
structure Asset where
  name : String
  browser_download_url : String
deriving DecidableEq, Repr

/-- The parsed release payload: the `tag_name` field (missing modelled as `""`,
matching `release.get("tag_name", "")`) and the `assets` array. -/
structure Release where
  tag_name : String
  assets : List Asset
deriving DecidableEq, Repr

/-- The dictionary appended to `result[system][version]` in
`fetch_python_versions` (`sha256` is always `None` in the code). -/
structure ArtifactDescriptor where
  filename : String
  platform : String
  url : String
  sha256 : Option String
deriving DecidableEq, Repr

/-- A version map: insertion-ordered association list from version tag to
artifact descriptors, mirroring a Python dict. -/
abbrev VersionMap := List (String × List ArtifactDescriptor)

/-- The release catalog, `{system: {version: [descriptor, ...]}}`, as an
insertion-ordered association list. -/
abbrev Catalog := List (String × VersionMap)

/-- `BASE_DIR = "downloads"`. -/
def BASE_DIR : String := "downloads"

/-- `SYSTEMS = ["Linux", "macOS", "Windows"]`. -/
def SYSTEMS : List String := ["Linux", "macOS", "Windows"]

/-- `MAX_WORKERS = 8`. -/
def MAX_WORKERS : Nat := 8

/-- Association-list lookup, `key in dict` / `dict[key]`. -/
def lookupCat : Catalog → String → Option VersionMap
  | [], _ => none
  | (s, vs) :: rest, k => if s == k then some vs else lookupCat rest k

/-- Append a descriptor to `vm[version]`, creating the key at the end if
absent (Python dict insertion order). -/
def addDesc (d : ArtifactDescriptor) (version : String) : VersionMap → VersionMap
  | [] => [(version, [d])]
  | (v, ds) :: rest =>
      if v == version then (v, ds ++ [d]) :: rest
      else (v, ds) :: addDesc d version rest

/-- `result[system][version].append(d)`; a system key absent from the catalog
is left unchanged (unreachable: the classifier only yields keys of `SYSTEMS`,
which are all present in the initial catalog). -/
def catInsert (d : ArtifactDescriptor) (system version : String) : Catalog → Catalog
  | [] => []
  | (s, vs) :: rest =>
      if s == system then (s, addDesc d version vs) :: rest
      else (s, vs) :: catInsert d system version rest

/-- `result = {sys: {} for sys in SYSTEMS}`. -/
def initCatalog : Catalog := SYSTEMS.map (fun s => (s, []))

/-- The platform / architecture classification of one asset filename
(lines 53-74 of the script).  Returns `some (system, platform_info)` exactly
when the Python code reaches `if system and platform_info` with both set. -/
def classifyAsset (name : String) : Option (String × String) :=
  if containsSub name "unknown-linux-gnu" then
    if containsSub name "x86_64" then some ("Linux", "x86_64")
    else if containsSub name "aarch64" then some ("Linux", "aarch64")
    else none
  else if containsSub name "apple-darwin" then
    if containsSub name "x86_64" then some ("macOS", "x86_64")
    else if containsSub name "aarch64" then some ("macOS", "aarch64 (Apple Silicon)")
    else none
  else if containsSub name "pc-windows" then
    if containsSub name "x86_64" then some ("Windows", "x86_64")
    else if containsSub name "i686" then some ("Windows", "i686")
    else none
  else none

/-- The body of the `for asset in release.get("assets", [])` loop: skip
assets whose name lacks the `install_only.tar.gz` marker, classify the rest,
silently drop unclassified ones, insert the classified ones. -/
def assetStep (version : String) (acc : Catalog) (a : Asset) : Catalog :=
  if !containsSub a.name "install_only.tar.gz" then acc
  else
    match classifyAsset a.name with
    | none => acc
    | some (system, platform) =>
        catInsert ⟨a.name, platform, a.browser_download_url, none⟩ system version acc

/-- `fetch_python_versions`: `none` in = the network request / JSON parsing
raised (the `except` branch returns `None`); otherwise build the catalog from
the payload.  An empty / missing `tag_name` returns the all-empty catalog. -/
def fetch_python_versions (payload : Option Release) : Option Catalog :=
  match payload with
  | none => none
  | some release =>
      let result := initCatalog
      let version := release.tag_name
      if version == "" then some result
      else some (release.assets.foldl (assetStep version) result)

/-! ### Filesystem and tasks -/

/-- The filesystem: the list of file paths currently present. -/
abbrev FS := List String

/-- `os.path.exists` on a file path. -/
def fsHas : FS → String → Bool
  | [], _ => false
  | q :: rest, p => q == p || fsHas rest p

/-- Writing a file at a path (the path becomes present). -/
def writeFile (fs : FS) (p : String) : FS := p :: fs

/-- `os.remove`: the path is no longer present. -/
def removeFile (fs : FS) (p : String) : FS := fs.filter (fun q => q != p)

/-- One download task `(url, save_path, filename)`. -/
structure Task where
  url : String
  save_path : String
  filename : String
deriving DecidableEq, Repr

/-- `os.path.join a b`. -/
def pathJoin (a b : String) : String := a ++ "/" ++ b

/-- `os.path.join(BASE_DIR, system, "Python")`. -/
def folderFor (system : String) : String :=
  pathJoin (pathJoin BASE_DIR system) "Python"

/-- `f"SHA256SUMS-{version}.txt"`. -/
def shaFilename (version : String) : String :=
  "SHA256SUMS-" ++ version ++ ".txt"

/-- The per-version checksum-manifest URL. -/
def shaUrl (version : String) : String :=
  "https://github.com/astral-sh/python-build-standalone/releases/download/"
    ++ version ++ "/SHA256SUMS"

/-- The `跳过 ... (已存在)` notice printed for an already present destination. -/
def skipNotice (filename : String) : String :=
  "跳过 " ++ filename ++ " (已存在)"

/-- Everything the planning phase of `download_files` (lines 116-147)
produces: the two task lists, the skip notices, and the directories passed to
`os.makedirs`. -/
structure PlanState where
  sha_tasks : List Task
  download_tasks : List Task
  skipped : List String
  dirs_made : List String
deriving DecidableEq, Repr

/-- The `for item in files` loop: plan an artifact task unless its
destination exists, in which case record a skip notice. -/
def planArtifacts (fs : FS) (folder : String) :
    List ArtifactDescriptor → List Task × List String
  | [] => ([], [])
  | item :: rest =>
      let save_path := pathJoin folder item.filename
      let r := planArtifacts fs folder rest
      if fsHas fs save_path then (r.1, skipNotice item.filename :: r.2)
      else (⟨item.url, save_path, item.filename⟩ :: r.1, r.2)

/-- The `for version, files in versions_data[system].items()` loop:
`os.makedirs(folder_path, exist_ok=True)`, then the manifest task (or its
skip notice), then the artifact tasks. -/
def planVersions (fs : FS) (system : String) : VersionMap → PlanState
  | [] => ⟨[], [], [], []⟩
  | (version, files) :: rest =>
      let folder := folderFor system
      let sha_path := pathJoin folder (shaFilename version)
      let st := planVersions fs system rest
      let ar := planArtifacts fs folder files
      if fsHas fs sha_path then
        ⟨st.sha_tasks, ar.1 ++ st.download_tasks,
         skipNotice (shaFilename version) :: (ar.2 ++ st.skipped),
         folder :: st.dirs_made⟩
      else
        ⟨⟨shaUrl version, sha_path, shaFilename version⟩ :: st.sha_tasks,
         ar.1 ++ st.download_tasks, ar.2 ++ st.skipped, folder :: st.dirs_made⟩

/-- The `for system in systems_to_download` loop: systems absent from the
catalog are skipped (`continue`). -/
def planSystems (vd : Catalog) (fs : FS) : List String → PlanState
  | [] => ⟨[], [], [], []⟩
  | system :: rest =>
      let st := planSystems vd fs rest
      match lookupCat vd system with
      | none => st
      | some vers =>
          let here := planVersions fs system vers
          ⟨here.sha_tasks ++ st.sha_tasks,
           here.download_tasks ++ st.download_tasks,
           here.skipped ++ st.skipped,
           here.dirs_made ++ st.dirs_made⟩

/-- The whole planning phase of `download_files`. -/
def plan (vd : Catalog) (systems : List String) (fs : FS) : PlanState :=
  planSystems vd fs systems

/-! ### The download engine -/

/-- Outcome of one `urlretrieve(url, save_path)` call: success, an exception
leaving a partially written file at the destination, or an exception leaving
nothing there. -/
inductive Transfer where
  | ok
  | errLeftover
  | errClean
deriving DecidableEq, Repr

/-- The success flag `download_single_file` returns for a given transfer
outcome. -/
def transferOk : Transfer → Bool
  | .ok => true
  | .errLeftover => false
  | .errClean => false

/-- `download_single_file(url, save_path, filename)`: on success the file is
written and `(True, filename)` returned; on failure, if a file is present at
the destination the code tries `os.remove` (swallowing its errors, oracle
`rmOk`), and `(False, filename)` is returned. -/
def download_single_file (net : String → Transfer) (rmOk : String → Bool)
    (fs : FS) (t : Task) : FS × Bool × String :=
  match net t.url with
  | .ok => (writeFile fs t.save_path, true, t.filename)
  | .errLeftover =>
      let fs1 := writeFile fs t.save_path
      let fs2 :=
        if fsHas fs1 t.save_path then
          if rmOk t.save_path then removeFile fs1 t.save_path else fs1
        else fs1
      (fs2, false, t.filename)
  | .errClean =>
      let fs2 :=
        if fsHas fs t.save_path then
          if rmOk t.save_path then removeFile fs t.save_path else fs
        else fs
      (fs2, false, t.filename)

/-- Run the submitted tasks, threading the filesystem, collecting one
`(success, filename)` outcome per task (concurrency flattened to submission
order). -/
def runTasks (net : String → Transfer) (rmOk : String → Bool) :
    FS → List Task → FS × List (Bool × String)
  | fs, [] => (fs, [])
  | fs, t :: rest =>
      let r := download_single_file net rmOk fs t
      let rec2 := runTasks net rmOk r.1 rest
      (rec2.1, r.2 :: rec2.2)

/-- `success_count`: outcomes with the success flag set. -/
def countSuccess (outs : List (Bool × String)) : Nat :=
  (outs.filter (fun o => o.1)).length

/-- `failed_count`: outcomes with the success flag clear. -/
def countFailed (outs : List (Bool × String)) : Nat :=
  (outs.filter (fun o => !o.1)).length

/-- The result of `download_files`: the filesystem afterwards, whether the
`没有需要下载的文件` early return was taken, the final tally (absent on the
early return), and the plan. -/
structure RunReport where
  fs : FS
  nothing_to_download : Bool
  tally : Option (Nat × Nat)
  planned : PlanState
deriving Repr

/-- `download_files(versions_data, systems_to_download)`: plan, return early
when there is nothing to download, otherwise submit the manifest tasks then
the artifact tasks and tally the outcomes. -/
def download_files (vd : Catalog) (systems : List String) (fs : FS)
    (net : String → Transfer) (rmOk : String → Bool) : RunReport :=
  let st := plan vd systems fs
  let tasks := st.sha_tasks ++ st.download_tasks
  if tasks.length == 0 then ⟨fs, true, none, st⟩
  else
    let r := runTasks net rmOk fs tasks
    ⟨r.1, false, some (countSuccess r.2, countFailed r.2), st⟩

/-- What `main` observably does after argument parsing. -/
structure MainOutcome where
  exit_code : Nat
  fatal_diag : Bool
  report : Option RunReport
deriving Repr

/-- Python truthiness of `versions_data` inside `if not versions_data:`
(a dict is truthy iff non-empty). -/
def catalogTruthy (vd : Catalog) : Bool := !vd.isEmpty

/-- `main` after argument parsing: fetch the catalog; if the result is falsy
(`None`, or an empty dict) print `获取失败！` and exit 1 without downloading;
otherwise run `download_files` and exit 0. -/
def main_run (payload : Option Release) (systems : List String) (fs : FS)
    (net : String → Transfer) (rmOk : String → Bool) : MainOutcome :=
  match fetch_python_versions payload with
  | none => ⟨1, true, none⟩
  | some vd =>
      if !catalogTruthy vd then ⟨1, true, none⟩
      else ⟨0, false, some (download_files vd systems fs net rmOk)⟩

/-! ### Derived notions used by the statements -/

/-- The candidate artifact tasks of one version, before the existence
filter. -/
def candArtifacts (folder : String) (files : List ArtifactDescriptor) : List Task :=
  files.map (fun item => ⟨item.url, pathJoin folder item.filename, item.filename⟩)

/-- The candidate manifest and artifact tasks of a version map, before the
existence filter. -/
def candVersions (system : String) : VersionMap → List Task × List Task
  | [] => ([], [])
  | (version, files) :: rest =>
      let folder := folderFor system
      let c := candVersions system rest
      (⟨shaUrl version, pathJoin folder (shaFilename version), shaFilename version⟩ :: c.1,
       candArtifacts folder files ++ c.2)

/-- The candidate manifest and artifact tasks of a whole run, before the
existence filter. -/
def candSystems (vd : Catalog) : List String → List Task × List Task
  | [] => ([], [])
  | system :: rest =>
      let c := candSystems vd rest
      match lookupCat vd system with
      | none => c
      | some vers =>
          let h := candVersions system vers
          (h.1 ++ c.1, h.2 ++ c.2)

/-- A descriptor occurs under system key `s` somewhere in the catalog. -/
def descMemAt (cat : Catalog) (s : String) (d : ArtifactDescriptor) : Prop :=
  ∃ p ∈ cat, p.1 = s ∧ ∃ q ∈ p.2, d ∈ q.2

/-- The network oracle under which every transfer succeeds. -/
def netAllOk : String → Transfer := fun _ => Transfer.ok

/-- The cleanup oracle under which every `os.remove` succeeds. -/
def rmAll : String → Bool := fun _ => true

/-- The concrete single-artifact catalog of the spec's test scenarios. -/
def catC : Catalog :=
  [("Linux", [("v1", [⟨"py-v1-x86_64.tar.gz", "x86_64", "http://x/a", none⟩])]),
   ("macOS", []), ("Windows", [])]

/-- The destination path of the artifact of `catC`. -/
def artifactPathC : String := pathJoin (folderFor "Linux") "py-v1-x86_64.tar.gz"

/-- A filesystem on which the artifact of `catC` is already present. -/
def fsC : FS := [artifactPathC]

/-- The network oracle under which every transfer fails leaving a partially
written file. -/
def netFailLeftover : String → Transfer := fun _ => Transfer.errLeftover

/-- The cleanup oracle under which every `os.remove` raises (its error is
swallowed by the code). -/
def rmNever : String → Bool := fun _ => false

/-- A concrete download task. -/
def cexTask : Task := ⟨"http://x/a", "downloads/Linux/Python/f.tar.gz", "f.tar.gz"⟩

/-- A concrete release asset whose name matches the Linux x86_64 markers and
the `install_only.tar.gz` marker. -/
def assetW : Asset :=
  ⟨"cpython-3.13.1-x86_64-unknown-linux-gnu-install_only.tar.gz", "http://u/1"⟩

/-- A concrete release payload holding just `assetW`. -/
def releaseW : Release := ⟨"20250101", [assetW]⟩

/-- The descriptor `fetch_python_versions` builds from `assetW`. -/
def descW : ArtifactDescriptor := ⟨assetW.name, "x86_64", "http://u/1", none⟩

/-- The catalog `fetch_python_versions` builds from `releaseW`. -/
def catW : Catalog :=
  [("Linux", [("20250101", [descW])]), ("macOS", []), ("Windows", [])]

/-! ### Basic lemmas -/

theorem fsHas_iff (fs : FS) (p : String) : fsHas fs p = true ↔ p ∈ fs := by
  induction fs with
  | nil => simp [fsHas]
  | cons q rest ih =>
      simp only [fsHas, Bool.or_eq_true, beq_iff_eq, List.mem_cons, ih]
      constructor
      · rintro (h | h)
        · exact Or.inl h.symm
        · exact Or.inr h
      · rintro (h | h)
        · exact Or.inl h.symm
        · exact Or.inr h

theorem fsHas_eq_false_iff (fs : FS) (p : String) :
    fsHas fs p = false ↔ p ∉ fs := by
  rw [← fsHas_iff]
  cases fsHas fs p <;> simp

theorem not_mem_removeFile (fs : FS) (p : String) : p ∉ removeFile fs p := by
  intro h
  have := List.mem_filter.mp h
  simp at this

theorem mem_removeFile_of_ne (fs : FS) (p q : String) (hq : q ∈ fs) (hne : q ≠ p) :
    q ∈ removeFile fs p := by
  exact List.mem_filter.mpr ⟨hq, by simp [hne]⟩

theorem filter_eq_nil_of_false {α : Type} (p : α → Bool) (l : List α)
    (h : ∀ a ∈ l, p a = false) : l.filter p = [] := by
  induction l with
  | nil => rfl
  | cons a rest ih =>
      have ha := h a (List.mem_cons_self a rest)
      simp only [List.filter_cons, ha, Bool.false_eq_true, if_false]
      exact ih (fun b hb => h b (List.mem_cons_of_mem a hb))

/-! ### The planner is the existence filter over the candidate tasks -/

theorem planArtifacts_fst (fs : FS) (folder : String) (files : List ArtifactDescriptor) :
    (planArtifacts fs folder files).1
      = (candArtifacts folder files).filter (fun t => !fsHas fs t.save_path) := by
  induction files with
  | nil => rfl
  | cons item rest ih =>
      simp only [planArtifacts, candArtifacts, List.map_cons, List.filter_cons]
      cases h : fsHas fs (pathJoin folder item.filename) <;>
        simp [h, ih, candArtifacts]

theorem planVersions_sha (fs : FS) (system : String) (vm : VersionMap) :
    (planVersions fs system vm).sha_tasks
      = (candVersions system vm).1.filter (fun t => !fsHas fs t.save_path) := by
  induction vm with
  | nil => rfl
  | cons e rest ih =>
      obtain ⟨version, files⟩ := e
      simp only [planVersions, candVersions, List.filter_cons]
      cases h : fsHas fs (pathJoin (folderFor system) (shaFilename version)) <;>
        simp [h, ih]

theorem planVersions_dl (fs : FS) (system : String) (vm : VersionMap) :
    (planVersions fs system vm).download_tasks
      = (candVersions system vm).2.filter (fun t => !fsHas fs t.save_path) := by
  induction vm with
  | nil => rfl
  | cons e rest ih =>
      obtain ⟨version, files⟩ := e
      simp only [planVersions, candVersions, List.filter_append]
      cases h : fsHas fs (pathJoin (folderFor system) (shaFilename version)) <;>
        simp [h, ih, planArtifacts_fst, List.filter_append]

theorem plan_sha (vd : Catalog) (systems : List String) (fs : FS) :
    (plan vd systems fs).sha_tasks
      = (candSystems vd systems).1.filter (fun t => !fsHas fs t.save_path) := by
  induction systems with
  | nil => rfl
  | cons system rest ih =>
      simp only [plan, planSystems, candSystems] at *
      cases h : lookupCat vd system <;>
        simp [h, ih, planVersions_sha, List.filter_append]

theorem plan_dl (vd : Catalog) (systems : List String) (fs : FS) :
    (plan vd systems fs).download_tasks
      = (candSystems vd systems).2.filter (fun t => !fsHas fs t.save_path) := by
  induction systems with
  | nil => rfl
  | cons system rest ih =>
      simp only [plan, planSystems, candSystems] at *
      cases h : lookupCat vd system <;>
        simp [h, ih, planVersions_dl, List.filter_append]

/-! ### Engine lemmas -/

theorem download_single_file_flag (net : String → Transfer) (rmOk : String → Bool)
    (fs : FS) (t : Task) :
    (download_single_file net rmOk fs t).2 = (transferOk (net t.url), t.filename) := by
  cases h : net t.url <;> simp [download_single_file, h, transferOk]

theorem runTasks_snd (net : String → Transfer) (rmOk : String → Bool)
    (fs : FS) (ts : List Task) :
    (runTasks net rmOk fs ts).2
      = ts.map (fun t => (transferOk (net t.url), t.filename)) := by
  induction ts generalizing fs with
  | nil => rfl
  | cons t rest ih =>
      simp [runTasks, ih, download_single_file_flag]

theorem counts_length (outs : List (Bool × String)) :
    countSuccess outs + countFailed outs = outs.length := by
  induction outs with
  | nil => rfl
  | cons o rest ih =>
      cases h : o.1 <;>
        simp [countSuccess, countFailed, List.filter_cons, h] at * <;>
        omega

theorem runTasks_allOk_fst (rmOk : String → Bool) (fs : FS) (ts : List Task) :
    (runTasks netAllOk rmOk fs ts).1
      = (ts.map (fun t => t.save_path)).reverse ++ fs := by
  induction ts generalizing fs with
  | nil => rfl
  | cons t rest ih =>
      simp [runTasks, download_single_file, netAllOk, writeFile, ih]

theorem download_single_file_preserves (net : String → Transfer) (rmOk : String → Bool)
    (fs : FS) (t : Task) (p : String) (hp : p ∈ fs) (hne : t.save_path ≠ p) :
    p ∈ (download_single_file net rmOk fs t).1 := by
  cases h : net t.url <;> simp only [download_single_file, h, writeFile]
  · exact List.mem_cons_of_mem _ hp
  · split
    · split
      · exact mem_removeFile_of_ne _ _ _ (List.mem_cons_of_mem _ hp) (fun hh => hne hh.symm)
      · exact List.mem_cons_of_mem _ hp
    · exact List.mem_cons_of_mem _ hp
  · split
    · split
      · exact mem_removeFile_of_ne _ _ _ hp (fun hh => hne hh.symm)
      · exact hp
    · exact hp

theorem runTasks_preserves (net : String → Transfer) (rmOk : String → Bool)
    (fs : FS) (ts : List Task) (p : String) (hp : p ∈ fs)
    (hne : ∀ t ∈ ts, t.save_path ≠ p) :
    p ∈ (runTasks net rmOk fs ts).1 := by
  induction ts generalizing fs with
  | nil => exact hp
  | cons t rest ih =>
      simp only [runTasks]
      exact ih _
        (download_single_file_preserves net rmOk fs t p hp
          (hne t (List.mem_cons_self t rest)))
        (fun u hu => hne u (List.mem_cons_of_mem t hu))

theorem download_single_file_cleanup (net : String → Transfer) (rmOk : String → Bool)
    (fs : FS) (t : Task)
    (hfail : (download_single_file net rmOk fs t).2.1 = false)
    (hrm : rmOk t.save_path = true) :
    t.save_path ∉ (download_single_file net rmOk fs t).1 := by
  cases h : net t.url <;> simp only [download_single_file, h, writeFile] at hfail ⊢
  · simp at hfail
  · have hhas : fsHas (t.save_path :: fs) t.save_path = true := by
      simp [fsHas]
    simp only [hhas, if_true, hrm]
    exact not_mem_removeFile _ _
  · cases hh : fsHas fs t.save_path
    · simp only [hh, Bool.false_eq_true, if_false]
      exact (fsHas_eq_false_iff fs t.save_path).mp hh
    · simp only [hh, if_true, hrm]
      exact not_mem_removeFile _ _

/-! ### Catalog lemmas -/

/-- A descriptor occurs somewhere in a version map. -/
def descMemV (vm : VersionMap) (d : ArtifactDescriptor) : Prop :=
  ∃ q ∈ vm, d ∈ q.2

theorem descMemV_addDesc (vm : VersionMap) (d d' : ArtifactDescriptor) (v : String)
    (h : descMemV (addDesc d' v vm) d) : descMemV vm d ∨ d = d' := by
  induction vm with
  | nil =>
      obtain ⟨q, hq, hd⟩ := h
      simp only [addDesc, List.mem_singleton] at hq
      subst hq
      simp at hd
      exact Or.inr hd
  | cons e rest ih =>
      obtain ⟨w, ds⟩ := e
      simp only [addDesc] at h
      by_cases hw : (w == v) = true
      · simp only [hw, if_true] at h
        obtain ⟨q, hq, hd⟩ := h
        rcases List.mem_cons.mp hq with hq | hq
        · subst hq
          simp only [List.mem_append, List.mem_singleton] at hd
          rcases hd with hd | hd
          · exact Or.inl ⟨(w, ds), List.mem_cons_self _ _, hd⟩
          · exact Or.inr hd
        · exact Or.inl ⟨q, List.mem_cons_of_mem _ hq, hd⟩
      · simp only [hw, if_false] at h
        obtain ⟨q, hq, hd⟩ := h
        rcases List.mem_cons.mp hq with hq | hq
        · subst hq
          exact Or.inl ⟨(w, ds), List.mem_cons_self _ _, hd⟩
        · rcases ih ⟨q, hq, hd⟩ with hih | hih
          · obtain ⟨q', hq', hd'⟩ := hih
            exact Or.inl ⟨q', List.mem_cons_of_mem _ hq', hd'⟩
          · exact Or.inr hih

theorem descMemAt_catInsert (cat : Catalog) (d d' : ArtifactDescriptor)
    (sys v s : String) (h : descMemAt (catInsert d' sys v cat) s d) :
    descMemAt cat s d ∨ (d = d' ∧ s = sys) := by
  induction cat with
  | nil =>
      simp [catInsert, descMemAt] at h
  | cons e rest ih =>
      obtain ⟨s', vs⟩ := e
      simp only [catInsert] at h
      by_cases hs : (s' == sys) = true
      · simp only [hs, if_true] at h
        obtain ⟨p, hp, hkey, hq⟩ := h
        rcases List.mem_cons.mp hp with hp | hp
        · subst hp
          rcases descMemV_addDesc vs d d' v hq with hv | hv
          · obtain ⟨q, hq', hd⟩ := hv
            exact Or.inl ⟨(s', vs), List.mem_cons_self _ _, hkey, q, hq', hd⟩
          · exact Or.inr ⟨hv, hkey ▸ (beq_iff_eq.mp hs)⟩
        · exact Or.inl ⟨p, List.mem_cons_of_mem _ hp, hkey, hq⟩
      · simp only [hs, if_false] at h
        obtain ⟨p, hp, hkey, hq⟩ := h
        rcases List.mem_cons.mp hp with hp | hp
        · subst hp
          exact Or.inl ⟨(s', vs), List.mem_cons_self _ _, hkey, hq⟩
        · rcases ih ⟨p, hp, hkey, hq⟩ with hih | hih
          · obtain ⟨p', hp', hkey', hq'⟩ := hih
            exact Or.inl ⟨p', List.mem_cons_of_mem _ hp', hkey', hq'⟩
          · exact Or.inr hih

theorem descMemAt_assetStep (ver : String) (acc : Catalog) (a : Asset)
    (s : String) (d : ArtifactDescriptor)
    (h : descMemAt (assetStep ver acc a) s d) :
    descMemAt acc s d ∨
      (containsSub a.name "install_only.tar.gz" = true ∧
        a.name = d.filename ∧ a.browser_download_url = d.url ∧
        classifyAsset a.name = some (s, d.platform)) := by
  simp only [assetStep] at h
  cases hc : containsSub a.name "install_only.tar.gz"
  · simp only [hc, Bool.not_false, if_true] at h
    exact Or.inl h
  · simp only [hc, Bool.not_true, Bool.false_eq_true, if_false] at h
    cases hcl : classifyAsset a.name with
    | none =>
        rw [hcl] at h
        exact Or.inl h
    | some sp =>
        rw [hcl] at h
        rcases descMemAt_catInsert acc d _ sp.1 ver s h with hm | ⟨hd, hsys⟩
        · exact Or.inl hm
        · subst hd
          subst hsys
          exact Or.inr ⟨rfl, rfl, rfl, by simp [hcl]⟩

theorem descMemAt_foldl (ver : String) (assets : List Asset) (acc : Catalog)
    (s : String) (d : ArtifactDescriptor)
    (h : descMemAt (assets.foldl (assetStep ver) acc) s d) :
    descMemAt acc s d ∨
      ∃ a ∈ assets, containsSub a.name "install_only.tar.gz" = true ∧
        a.name = d.filename ∧ a.browser_download_url = d.url ∧
        classifyAsset a.name = some (s, d.platform) := by
  induction assets generalizing acc with
  | nil => exact Or.inl h
  | cons a rest ih =>
      simp only [List.foldl_cons] at h
      rcases ih (assetStep ver acc a) h with hih | hih
      · rcases descMemAt_assetStep ver acc a s d hih with hm | hm
        · exact Or.inl hm
        · exact Or.inr ⟨a, List.mem_cons_self _ _, hm⟩
      · obtain ⟨a', ha', hp⟩ := hih
        exact Or.inr ⟨a', List.mem_cons_of_mem _ ha', hp⟩

theorem descMemAt_initCatalog (s : String) (d : ArtifactDescriptor) :
    ¬ descMemAt initCatalog s d := by
  intro h
  simp [descMemAt, initCatalog, SYSTEMS] at h

theorem lookupCat_catInsert_isSome (cat : Catalog) (d : ArtifactDescriptor)
    (sys v s : String) :
    (lookupCat (catInsert d sys v cat) s).isSome = (lookupCat cat s).isSome := by
  induction cat with
  | nil => rfl
  | cons e rest ih =>
      obtain ⟨s', vs⟩ := e
      simp only [catInsert]
      by_cases hs : (s' == sys) = true
      · simp only [hs, if_true, lookupCat]
        by_cases hk : (s' == s) = true <;> simp [hk]
      · simp only [hs, if_false, lookupCat]
        by_cases hk : (s' == s) = true <;> simp [hk, ih]

theorem lookupCat_assetStep_isSome (ver : String) (acc : Catalog) (a : Asset)
    (s : String) :
    (lookupCat (assetStep ver acc a) s).isSome = (lookupCat acc s).isSome := by
  simp only [assetStep]
  cases hc : containsSub a.name "install_only.tar.gz"
  · simp
  · simp only [Bool.not_true, Bool.false_eq_true, if_false]
    cases hcl : classifyAsset a.name with
    | none => rfl
    | some sp => exact lookupCat_catInsert_isSome acc _ sp.1 ver s

theorem lookupCat_foldl_isSome (ver : String) (assets : List Asset) (acc : Catalog)
    (s : String) :
    (lookupCat (assets.foldl (assetStep ver) acc) s).isSome
      = (lookupCat acc s).isSome := by
  induction assets generalizing acc with
  | nil => rfl
  | cons a rest ih =>
      simp only [List.foldl_cons]
      rw [ih, lookupCat_assetStep_isSome]

theorem lookupCat_initCatalog_isSome (s : String) (hs : s ∈ SYSTEMS) :
    (lookupCat initCatalog s).isSome = true := by
  simp only [SYSTEMS, List.mem_cons, List.mem_singleton, List.not_mem_nil] at hs
  rcases hs with h | h | h | h <;> first
    | (subst h; decide)
    | exact absurd h (by simp)

theorem lookupCat_initCatalog_cases (s : String) :
    lookupCat initCatalog s = some [] ∨ lookupCat initCatalog s = none := by
  simp only [initCatalog, SYSTEMS, List.map_cons, List.map_nil, lookupCat]
  split_ifs <;> simp

theorem plan_initCatalog (systems : List String) (fs : FS) :
    plan initCatalog systems fs = ⟨[], [], [], []⟩ := by
  induction systems with
  | nil => rfl
  | cons system rest ih =>
      simp only [plan, planSystems] at *
      rcases lookupCat_initCatalog_cases system with h | h <;>
        simp [h, ih, planVersions]

/-! ### Remaining helper lemmas -/

theorem plan_second_empty_aux (fs fs1 : FS) (cands : List Task)
    (hsub : ∀ t ∈ cands.filter (fun t => !fsHas fs t.save_path), t.save_path ∈ fs1)
    (hfs : ∀ p ∈ fs, p ∈ fs1) :
    cands.filter (fun t => !fsHas fs1 t.save_path) = [] := by
  apply filter_eq_nil_of_false
  intro c hc
  have hmem : c.save_path ∈ fs1 := by
    cases h : fsHas fs c.save_path
    · exact hsub c (List.mem_filter.mpr ⟨hc, by simp [h]⟩)
    · exact hfs _ ((fsHas_iff _ _).mp h)
  simp [(fsHas_iff _ _).mpr hmem]

theorem planVersions_dirs_mem (fs : FS) (system : String) (vm : VersionMap)
    (h : vm ≠ []) : folderFor system ∈ (planVersions fs system vm).dirs_made := by
  cases vm with
  | nil => exact absurd rfl h
  | cons e rest =>
      obtain ⟨version, files⟩ := e
      simp only [planVersions]
      cases hx : fsHas fs (pathJoin (folderFor system) (shaFilename version)) <;>
        simp [hx]

theorem plan_task_not_on_disk (vd : Catalog) (systems : List String) (fs : FS)
    (t : Task)
    (ht : t ∈ (plan vd systems fs).sha_tasks ++ (plan vd systems fs).download_tasks) :
    fsHas fs t.save_path = false := by
  rw [plan_sha, plan_dl] at ht
  rcases List.mem_append.mp ht with h | h <;>
  · have := (List.mem_filter.mp h).2
    simpa using this

/-! ### The claims -/

/-- Claim C1, counterexample: a task whose transfer fails with a partially
written file, and whose best-effort `os.remove` also raises, records a
failure outcome yet leaves the partial file at its destination path — so it
is not true that after every failed task no file remains at the destination. -/
theorem claim_C1_counterexample :
    (download_single_file netFailLeftover rmNever [] cexTask).2.1 = false
    ∧ cexTask.save_path ∈ (download_single_file netFailLeftover rmNever [] cexTask).1 := by
  decide

/-- Claim C1, amended: on a failed transfer the engine removes any file
present at the destination before recording the failure, but only
best-effort — whenever the attempted removal succeeds, no file remains at
the task's destination path. -/
theorem claim_C1_amended (net : String → Transfer) (rmOk : String → Bool)
    (fs : FS) (t : Task)
    (hfail : (download_single_file net rmOk fs t).2.1 = false)
    (hrm : rmOk t.save_path = true) :
    t.save_path ∉ (download_single_file net rmOk fs t).1 :=
  download_single_file_cleanup net rmOk fs t hfail hrm

/-- Witness for the amendment of claim C1 at a concrete failing task. -/
theorem claim_C1_amended_witness :
    cexTask.save_path ∉ (download_single_file netFailLeftover rmAll [] cexTask).1 :=
  claim_C1_amended netFailLeftover rmAll [] cexTask (by decide) (by decide)

/-- Claim C2: the engine yields exactly one `(success, filename)` outcome
per submitted task, each outcome a function of that task alone (so one
task's failure never raises out of the engine nor affects another task's
outcome), and when any tasks were planned the reported tally satisfies
`success_count + failed_count = number of submitted tasks`. -/
theorem claim_C2 (net : String → Transfer) (rmOk : String → Bool) (fs : FS)
    (ts : List Task) :
    (runTasks net rmOk fs ts).2
        = ts.map (fun t => (transferOk (net t.url), t.filename))
    ∧ countSuccess (runTasks net rmOk fs ts).2
        + countFailed (runTasks net rmOk fs ts).2 = ts.length
    ∧ ∀ (vd : Catalog) (systems : List String),
        ((plan vd systems fs).sha_tasks ++ (plan vd systems fs).download_tasks).length ≠ 0 →
        ∃ s f, (download_files vd systems fs net rmOk).tally = some (s, f)
          ∧ s + f = ((plan vd systems fs).sha_tasks
              ++ (plan vd systems fs).download_tasks).length := by
  refine ⟨runTasks_snd net rmOk fs ts, ?_, ?_⟩
  · rw [counts_length, runTasks_snd, List.length_map]
  · intro vd systems hn
    simp only [download_files]
    rw [if_neg (by simpa using hn)]
    refine ⟨_, _, rfl, ?_⟩
    rw [counts_length, runTasks_snd, List.length_map]

/-- Witness for claim C2's tally clause at the concrete catalog. -/
theorem claim_C2_witness :
    ∃ s f, (download_files catC ["Linux"] [] netAllOk rmAll).tally = some (s, f)
      ∧ s + f = ((plan catC ["Linux"] []).sha_tasks
          ++ (plan catC ["Linux"] []).download_tasks).length :=
  (claim_C2 netAllOk rmAll [] []).2.2 catC ["Linux"] (by decide)

/-- Claim C3: on the concrete catalog with one Linux artifact and empty
macOS / Windows maps, selecting Linux with no pre-existing files plans one
manifest task and one artifact task, and an all-successful run reports the
tally `(2, 0)`. -/
theorem claim_C3 :
    (plan catC ["Linux"] []).sha_tasks.length = 1
    ∧ (plan catC ["Linux"] []).download_tasks.length = 1
    ∧ (download_files catC ["Linux"] [] netAllOk rmAll).tally = some (2, 0) := by
  decide

/-- Claim C4: a task is planned only if its destination does not exist, and
after a fully successful run, re-planning against the unchanged catalog and
the resulting filesystem yields zero tasks — the second run transfers
nothing. -/
theorem claim_C4 (vd : Catalog) (systems : List String) (fs : FS)
    (rmOk : String → Bool) :
    (∀ t ∈ (plan vd systems fs).sha_tasks ++ (plan vd systems fs).download_tasks,
        fsHas fs t.save_path = false)
    ∧ (plan vd systems
        ((runTasks netAllOk rmOk fs
          ((plan vd systems fs).sha_tasks
            ++ (plan vd systems fs).download_tasks)).1)).sha_tasks = []
    ∧ (plan vd systems
        ((runTasks netAllOk rmOk fs
          ((plan vd systems fs).sha_tasks
            ++ (plan vd systems fs).download_tasks)).1)).download_tasks = [] := by
  refine ⟨fun t ht => plan_task_not_on_disk vd systems fs t ht, ?_, ?_⟩
  all_goals
    rw [runTasks_allOk_fst]
    first
      | rw [plan_sha vd systems ((((plan vd systems fs).sha_tasks
            ++ (plan vd systems fs).download_tasks).map (fun t => t.save_path)).reverse ++ fs)]
      | rw [plan_dl vd systems ((((plan vd systems fs).sha_tasks
            ++ (plan vd systems fs).download_tasks).map (fun t => t.save_path)).reverse ++ fs)]
    apply plan_second_empty_aux fs
    · intro t htf
      apply List.mem_append_left
      apply List.mem_reverse.mpr
      apply List.mem_map.mpr
      refine ⟨t, ?_, rfl⟩
      first
        | exact List.mem_append_left _ (by rw [plan_sha]; exact htf)
        | exact List.mem_append_right _ (by rw [plan_dl]; exact htf)
    · intro p hp
      exact List.mem_append_right _ hp

/-- Witness for claim C4 at the concrete catalog. -/
theorem claim_C4_witness :
    fsHas []
      ((⟨shaUrl "v1", pathJoin (folderFor "Linux") (shaFilename "v1"),
          shaFilename "v1"⟩ : Task)).save_path = false :=
  (claim_C4 catC ["Linux"] [] rmAll).1 _ (by decide)

/-- Claim C5: an already present destination is never planned and the file
at it survives the run untouched; on the concrete catalog with the artifact
already on disk, planning emits only the manifest task together with the
`跳过 ... (已存在)` notice, and the reported tally is `(1, 0)` — the skipped
artifact is counted neither as success nor as failure. -/
theorem claim_C5 (net : String → Transfer) (rmOk : String → Bool)
    (vd : Catalog) (systems : List String) (fs : FS) (p : String) (hp : p ∈ fs) :
    (∀ t ∈ (plan vd systems fs).sha_tasks ++ (plan vd systems fs).download_tasks,
        t.save_path ≠ p)
    ∧ p ∈ (runTasks net rmOk fs
        ((plan vd systems fs).sha_tasks ++ (plan vd systems fs).download_tasks)).1
    ∧ (plan catC ["Linux"] fsC).sha_tasks.length = 1
    ∧ (plan catC ["Linux"] fsC).download_tasks = []
    ∧ (plan catC ["Linux"] fsC).skipped = [skipNotice "py-v1-x86_64.tar.gz"]
    ∧ (download_files catC ["Linux"] fsC netAllOk rmAll).tally = some (1, 0)
    ∧ artifactPathC ∈ (download_files catC ["Linux"] fsC netAllOk rmAll).fs := by
  have hne : ∀ t ∈ (plan vd systems fs).sha_tasks ++ (plan vd systems fs).download_tasks,
      t.save_path ≠ p := by
    intro t ht heq
    have := plan_task_not_on_disk vd systems fs t ht
    rw [heq] at this
    exact absurd hp ((fsHas_eq_false_iff fs p).mp this)
  refine ⟨hne, runTasks_preserves net rmOk fs _ p hp hne, ?_, ?_, ?_, ?_, ?_⟩ <;> decide

/-- Witness for claim C5 at a concrete filesystem. -/
theorem claim_C5_witness :
    artifactPathC ∈ (runTasks netAllOk rmAll fsC
        ((plan catC ["Linux"] fsC).sha_tasks
          ++ (plan catC ["Linux"] fsC).download_tasks)).1 :=
  (claim_C5 netAllOk rmAll catC ["Linux"] fsC artifactPathC (by decide)).2.1

/-- Claim C6: the catalog builder is a pure filter over the release payload:
classification never fails (it always returns a catalog); every descriptor
found under a system key carries the name and download URL of some asset of
the payload, its name matches `install_only.tar.gz`, and its system key and
architecture label are exactly what `classifyAsset` assigns to that filename
(so nothing is ever fabricated or misfiled, and an asset lacking the suffix
is in no platform's result); and an asset whose name matches no
platform-marker or no architecture-marker — `classifyAsset` returns `none`
on it — is silently dropped: no descriptor with its filename appears under
any platform. -/
theorem claim_C6 :
    (∀ r : Release, (fetch_python_versions (some r)).isSome = true)
    ∧ (∀ (r : Release) (cat : Catalog) (s : String) (d : ArtifactDescriptor),
        fetch_python_versions (some r) = some cat → descMemAt cat s d →
        containsSub d.filename "install_only.tar.gz" = true
        ∧ classifyAsset d.filename = some (s, d.platform)
        ∧ ∃ a ∈ r.assets, a.name = d.filename ∧ a.browser_download_url = d.url)
    ∧ ∀ (r : Release) (cat : Catalog) (name s : String) (d : ArtifactDescriptor),
        fetch_python_versions (some r) = some cat → classifyAsset name = none →
        descMemAt cat s d → d.filename ≠ name := by
  have hmain : ∀ (r : Release) (cat : Catalog) (s : String) (d : ArtifactDescriptor),
      fetch_python_versions (some r) = some cat → descMemAt cat s d →
      containsSub d.filename "install_only.tar.gz" = true
      ∧ classifyAsset d.filename = some (s, d.platform)
      ∧ ∃ a ∈ r.assets, a.name = d.filename ∧ a.browser_download_url = d.url := by
    intro r cat s d hfetch hd
    simp only [fetch_python_versions] at hfetch
    cases h : r.tag_name == ""
    · rw [h] at hfetch
      simp only [Bool.false_eq_true, if_false, Option.some.injEq] at hfetch
      subst hfetch
      rcases descMemAt_foldl r.tag_name r.assets initCatalog s d hd with hm | hm
      · exact absurd hm (descMemAt_initCatalog s d)
      · obtain ⟨a, ha, hsuf, hname, hurl, hcl⟩ := hm
        exact ⟨hname ▸ hsuf, hname ▸ hcl, a, ha, hname, hurl⟩
    · rw [h] at hfetch
      simp only [if_true, Option.some.injEq] at hfetch
      subst hfetch
      exact absurd hd (descMemAt_initCatalog s d)
  refine ⟨?_, hmain, ?_⟩
  · intro r
    cases h : r.tag_name == "" <;> simp [fetch_python_versions, h]
  · intro r cat name s d hfetch hnone hd heq
    have := (hmain r cat s d hfetch hd).2.1
    rw [heq, hnone] at this
    exact Option.noConfusion this

/-- Witness for claim C6 at a concrete one-asset payload. -/
theorem claim_C6_witness :
    containsSub descW.filename "install_only.tar.gz" = true
    ∧ classifyAsset descW.filename = some ("Linux", descW.platform)
    ∧ ∃ a ∈ releaseW.assets, a.name = descW.filename
        ∧ a.browser_download_url = descW.url :=
  claim_C6.2.1 releaseW catW "Linux" descW (by decide)
    ⟨_, List.mem_cons_self _ _, rfl, _, List.mem_cons_self _ _, List.mem_cons_self _ _⟩

/-- Claim C7: when the catalog fetch raises, the builder returns the
distinguished unavailable result (`None`, never a partial catalog), and the
run prints the `获取失败！` diagnostic, attempts no downloads and exits with
status 1; when it succeeds, the returned catalog has a key for every
platform of `SYSTEMS`, empty maps included. -/
theorem claim_C7 :
    fetch_python_versions none = none
    ∧ (∀ (systems : List String) (fs : FS) (net : String → Transfer)
        (rmOk : String → Bool),
        main_run none systems fs net rmOk = ⟨1, true, none⟩)
    ∧ ∀ (r : Release) (cat : Catalog) (s : String),
        fetch_python_versions (some r) = some cat → s ∈ SYSTEMS →
        (lookupCat cat s).isSome = true := by
  refine ⟨rfl, fun systems fs net rmOk => rfl, ?_⟩
  intro r cat s hfetch hs
  simp only [fetch_python_versions] at hfetch
  cases h : r.tag_name == ""
  · rw [h] at hfetch
    simp only [Bool.false_eq_true, if_false, Option.some.injEq] at hfetch
    subst hfetch
    rw [lookupCat_foldl_isSome]
    exact lookupCat_initCatalog_isSome s hs
  · rw [h] at hfetch
    simp only [if_true, Option.some.injEq] at hfetch
    subst hfetch
    exact lookupCat_initCatalog_isSome s hs

/-- Witness for claim C7 at a concrete payload and platform. -/
theorem claim_C7_witness : (lookupCat catW "macOS").isSome = true :=
  claim_C7.2.2 releaseW catW "macOS" (by decide) (by decide)

/-- Claim C9: a payload that parses but carries a missing or empty
`tag_name` yields the catalog with every platform mapped to an empty version
map (not the unavailable result); the run then proceeds as a success — zero
tasks are planned, the `没有需要下载的文件` notice is reported, and the
process does not exit with a failure status. -/
theorem claim_C9 (r : Release) (systems : List String) (fs : FS)
    (net : String → Transfer) (rmOk : String → Bool) (h : r.tag_name = "") :
    fetch_python_versions (some r) = some initCatalog
    ∧ main_run (some r) systems fs net rmOk
        = ⟨0, false, some ⟨fs, true, none, ⟨[], [], [], []⟩⟩⟩ := by
  have hfetch : fetch_python_versions (some r) = some initCatalog := by
    simp [fetch_python_versions, h]
  refine ⟨hfetch, ?_⟩
  simp only [main_run, hfetch, catalogTruthy, download_files, plan_initCatalog]
  rfl

/-- Witness for claim C9 at a concrete empty-tag payload. -/
theorem claim_C9_witness :
    fetch_python_versions (some ⟨"", [assetW]⟩) = some initCatalog
    ∧ main_run (some ⟨"", [assetW]⟩) ["Linux"] [] netAllOk rmAll
        = ⟨0, false, some ⟨[], true, none, ⟨[], [], [], []⟩⟩⟩ :=
  claim_C9 ⟨"", [assetW]⟩ ["Linux"] [] netAllOk rmAll rfl

/-- Claim C10: for every selected platform present in the catalog with at
least one version, planning passes the per-platform directory
`downloads/<system>/Python` to `os.makedirs` — on any filesystem, so also
when every task under it is skipped as already present. -/
theorem claim_C10 (vd : Catalog) (systems : List String) (fs : FS)
    (s v : String) (vers : VersionMap) (files : List ArtifactDescriptor)
    (hs : s ∈ systems) (hv : lookupCat vd s = some vers) (hm : (v, files) ∈ vers) :
    folderFor s ∈ (plan vd systems fs).dirs_made := by
  induction systems with
  | nil => exact absurd hs (List.not_mem_nil s)
  | cons system rest ih =>
      simp only [plan, planSystems] at *
      rcases List.mem_cons.mp hs with hh | hh
      · subst hh
        rw [hv]
        exact List.mem_append_left _
          (planVersions_dirs_mem fs s vers (List.ne_nil_of_mem hm))
      · cases hl : lookupCat vd system
        · exact ih hh
        · exact List.mem_append_right _ (ih hh)

/-- Witness for claim C10 on a filesystem where every destination already
exists (the run transfers nothing yet the directory is still created). -/
theorem claim_C10_witness :
    folderFor "Linux" ∈ (plan catC ["Linux"]
      [pathJoin (folderFor "Linux") (shaFilename "v1"), artifactPathC]).dirs_made :=
  claim_C10 catC ["Linux"]
    [pathJoin (folderFor "Linux") (shaFilename "v1"), artifactPathC]
    "Linux" "v1" [("v1", [⟨"py-v1-x86_64.tar.gz", "x86_64", "http://x/a", none⟩])]
    [⟨"py-v1-x86_64.tar.gz", "x86_64", "http://x/a", none⟩]
    (by decide) (by decide) (by decide)

end FetchPython
